import Mathlib

/-!
Verification of the events-service repository (`ca_events_svc`).

The development shallowly embeds the parts of the code that the claims
are about:

* `app/utils/datetime.py` (`ensure_utc_aware`) over a model of Python
  `datetime` values and a model of `datetime.fromisoformat`;
* `app/schemas/event.py` (title / description validators);
* `app/services/event_service.py` (create / get / update / list / delete,
  `_validate_business_rules`) over a list-of-rows model of the database;
* `app/error_handlers.py` (`generate_error_code` and the
  exception-to-HTTP-status mapping registered in `app/main.py`);
* `app/config.py` (pagination-limit validation of `Settings`).
-/

/-- Model of a Python `datetime` value.  `wall` is the wall-clock reading
linearized to seconds (days in the proleptic Gregorian calendar plus the
time of day); `tz` is the `tzinfo` utcoffset in seconds, with `none`
standing for a timezone-naive value.  The instant an aware value denotes
is `wall - off`. -/
structure PyDatetime where
  wall : Int
  tz : Option Int
deriving DecidableEq, Repr

/-- Instant denoted by an aware datetime (`none` for a naive one). -/
def awareInstant (d : PyDatetime) : Option Int :=
  match d.tz with
  | some off => some (d.wall - off)
  | none => none

/- ### Model of `datetime.fromisoformat` (Python standard library)

Modelled from CPython's parser, restricted to the common grammar
`YYYY-MM-DD[(T| )HH:MM[:SS][(+|-)HH:MM]]` (no fractional seconds). -/

/-- Value of a decimal digit character, `none` for non-digits. -/
def digitVal (c : Char) : Option Nat :=
  if c.isDigit then some (c.toNat - 48) else none

/-- Accumulator loop consuming exactly `n` digit characters. -/
def takeDigitsAux : Nat → Nat → List Char → Option (Nat × List Char)
  | acc, 0, cs => some (acc, cs)
  | _, _ + 1, [] => none
  | acc, n + 1, c :: cs =>
    match digitVal c with
    | some d => takeDigitsAux (acc * 10 + d) n cs
    | none => none

/-- Consume exactly `n` digits, returning their value and the rest. -/
def takeDigits (n : Nat) (cs : List Char) : Option (Nat × List Char) :=
  takeDigitsAux 0 n cs

/-- Consume one expected character. -/
def expectChar (c : Char) : List Char → Option (List Char)
  | [] => none
  | d :: cs => if d = c then some cs else none

/-- Gregorian leap-year rule. -/
def isLeapYear (y : Nat) : Bool :=
  (y % 4 = 0 && y % 100 ≠ 0) || y % 400 = 0

/-- Number of days of month `m` in year `y`. -/
def daysInMonth (y m : Nat) : Nat :=
  if m = 2 then (if isLeapYear y then 29 else 28)
  else if m = 4 ∨ m = 6 ∨ m = 9 ∨ m = 11 then 30
  else 31

/-- Days in year `y` before month `m` (for `1 ≤ m`). -/
def daysBeforeMonth (y : Nat) : Nat → Nat
  | 0 => 0
  | m + 1 => if m = 0 then 0 else daysBeforeMonth y m + daysInMonth y m

/-- Days of the proleptic Gregorian calendar before year `y`. -/
def daysBeforeYear (y : Nat) : Nat :=
  let p := y - 1
  365 * p + p / 4 - p / 100 + p / 400

/-- Linearized wall-clock reading in seconds for the given fields. -/
def toWallSeconds (y mo d h mi s : Nat) : Int :=
  ((daysBeforeYear y + daysBeforeMonth y mo + (d - 1)) * 86400
    + h * 3600 + mi * 60 + s : Nat)

/-- Parse `YYYY-MM-DD`, validating the calendar ranges. -/
def parseDate (cs : List Char) : Option (Nat × Nat × Nat × List Char) := do
  let (y, cs) ← takeDigits 4 cs
  let cs ← expectChar '-' cs
  let (mo, cs) ← takeDigits 2 cs
  let cs ← expectChar '-' cs
  let (d, cs) ← takeDigits 2 cs
  if 1 ≤ y ∧ 1 ≤ mo ∧ mo ≤ 12 ∧ 1 ≤ d ∧ d ≤ daysInMonth y mo then
    some (y, mo, d, cs)
  else none

/-- Parse `HH:MM` with optional `:SS`, validating ranges. -/
def parseTime (cs : List Char) : Option (Nat × Nat × Nat × List Char) := do
  let (h, cs) ← takeDigits 2 cs
  let cs ← expectChar ':' cs
  let (mi, cs) ← takeDigits 2 cs
  let (s, cs) ←
    match expectChar ':' cs with
    | some cs2 => takeDigits 2 cs2
    | none => some (0, cs)
  if h ≤ 23 ∧ mi ≤ 59 ∧ s ≤ 59 then some (h, mi, s, cs) else none

/-- Parse an optional trailing UTC offset `(+|-)HH:MM`; the empty rest
means no offset (a naive result); anything else fails. -/
def parseOffset (cs : List Char) : Option (Option Int × List Char) :=
  match cs with
  | [] => some (none, [])
  | c :: rest =>
    if c = '+' ∨ c = '-' then
      match takeDigits 2 rest with
      | none => none
      | some (oh, rest2) =>
        match expectChar ':' rest2 with
        | none => none
        | some rest3 =>
          match takeDigits 2 rest3 with
          | none => none
          | some (om, rest4) =>
            if oh ≤ 23 ∧ om ≤ 59 then
              let total : Int := (oh * 3600 + om * 60 : Nat)
              some (some (if c = '-' then -total else total), rest4)
            else none
    else none

/-- Model of `datetime.fromisoformat`: parse an ISO 8601 string into a
`PyDatetime`, `none` on any malformed input. -/
def pyFromIso (s : String) : Option PyDatetime := do
  let cs := s.toList
  let (y, mo, d, cs) ← parseDate cs
  match cs with
  | [] => some ⟨toWallSeconds y mo d 0 0 0, none⟩
  | c :: rest =>
    if c = 'T' ∨ c = ' ' then do
      let (h, mi, sec, cs2) ← parseTime rest
      let (off, cs3) ← parseOffset cs2
      if cs3 = [] then some ⟨toWallSeconds y mo d h mi sec, off⟩ else none
    else none

/- ### `app/utils/datetime.py` -/

/-- The runtime values `ensure_utc_aware` can receive: a string, a
datetime object, `None`, or an object of any other type. -/
inductive DTInput where
  | str (s : String)
  | dt (d : PyDatetime)
  | pyNone
  | otherObj
deriving DecidableEq, Repr

/-- Model of Python `str.strip()`: drop leading and trailing whitespace. -/
def pyStrip (s : String) : String :=
  String.mk (((s.toList.dropWhile Char.isWhitespace).reverse.dropWhile
    Char.isWhitespace).reverse)

/-- Model of Python `str.endswith` for a single character. -/
def pyEndsWith (s : String) (c : Char) : Bool :=
  match s.toList.getLast? with
  | some d => d = c
  | none => false

/-- Embeds `value[:-1] + "+00:00"` applied when `value.endswith("Z")`. -/
def normalizeZ (s : String) : String :=
  if pyEndsWith s 'Z' then String.mk s.toList.dropLast ++ "+00:00" else s

/-- Embeds lines 56-63 of `ensure_utc_aware`: reject a naive datetime,
convert a non-UTC aware one with `astimezone(timezone.utc)`, pass a UTC
one through. -/
def toUtcAwareChecked (dt : PyDatetime) : Except String PyDatetime :=
  match dt.tz with
  | none =>
    .error "Timezone-naive datetime not allowed. Please provide timezone information."
  | some off =>
    if off ≠ 0 then .ok ⟨dt.wall - off, some 0⟩ else .ok dt

/-- Embeds `app.utils.datetime.ensure_utc_aware`.  Python `ValueError`
is modelled as `Except.error` carrying the message. -/
def ensure_utc_aware : DTInput → Except String PyDatetime
  | .pyNone => .error "Datetime value cannot be None"
  | .str v =>
    let v1 := pyStrip v
    if v1 = "" then .error "Datetime string cannot be empty"
    else
      match pyFromIso (normalizeZ v1) with
      | none => .error "Invalid datetime format. Use ISO 8601 format with timezone."
      | some dt => toUtcAwareChecked dt
  | .dt d => toUtcAwareChecked d
  | .otherObj => .error "Unsupported datetime type. Expected string or datetime object"

/-- Instant an input denotes, per ISO 8601 semantics for strings (a
trailing `Z` meaning offset zero) and utcoffset semantics for aware
datetime objects; `none` when the input denotes no instant. -/
def denotedInstant : DTInput → Option Int
  | .dt d => awareInstant d
  | .str s =>
    match pyFromIso (normalizeZ (pyStrip s)) with
    | some d => awareInstant d
    | none => none
  | .pyNone => none
  | .otherObj => none

theorem toUtcAwareChecked_ok {d r : PyDatetime}
    (h : toUtcAwareChecked d = .ok r) :
    r.tz = some 0 ∧ awareInstant d = some r.wall := by
  unfold toUtcAwareChecked at h
  cases hd : d.tz with
  | none => rw [hd] at h; cases h
  | some off =>
    rw [hd] at h
    by_cases hoff : off = 0
    · subst hoff
      simp only [ne_eq, not_true_eq_false, if_neg, ite_false,
        reduceIte, Except.ok.injEq] at h
      subst h
      simp [awareInstant, hd]
    · simp only [ne_eq, hoff, not_false_eq_true, if_pos, ite_true,
        Except.ok.injEq] at h
      subst h
      simp [awareInstant, hd]

theorem ensure_utc_aware_ok_tz {x : DTInput} {d : PyDatetime}
    (h : ensure_utc_aware x = .ok d) : d.tz = some 0 := by
  cases x with
  | pyNone => cases h
  | otherObj => cases h
  | dt d0 => exact (toUtcAwareChecked_ok h).1
  | str s =>
    simp only [ensure_utc_aware] at h
    by_cases he : pyStrip s = ""
    · rw [if_pos he] at h; cases h
    · rw [if_neg he] at h
      cases hp : pyFromIso (normalizeZ (pyStrip s)) with
      | none => rw [hp] at h; cases h
      | some d0 => rw [hp] at h; exact (toUtcAwareChecked_ok h).1

/-- C1: for every input `ensure_utc_aware` accepts, the result is a
timezone-aware datetime whose tzinfo is UTC (offset `some 0`) and which
denotes the same instant in time as the input. -/
theorem ensure_utc_aware_utc_same_instant (x : DTInput) (d : PyDatetime)
    (h : ensure_utc_aware x = .ok d) :
    d.tz = some 0 ∧ denotedInstant x = some d.wall := by
  cases x with
  | pyNone => cases h
  | otherObj => cases h
  | dt d0 =>
    have := toUtcAwareChecked_ok (d := d0) h
    exact ⟨this.1, this.2⟩
  | str s =>
    simp only [ensure_utc_aware] at h
    by_cases he : pyStrip s = ""
    · rw [if_pos he] at h; cases h
    · rw [if_neg he] at h
      cases hp : pyFromIso (normalizeZ (pyStrip s)) with
      | none => rw [hp] at h; cases h
      | some d0 =>
        rw [hp] at h
        have := toUtcAwareChecked_ok (d := d0) h
        refine ⟨this.1, ?_⟩
        simp only [denotedInstant, hp]
        exact this.2

theorem ensure_utc_aware_utc_same_instant_witness :
    ensure_utc_aware (.str "2025-01-15T15:30:00+05:00") =
      .ok ⟨63872533800, some 0⟩ ∧
    (PyDatetime.mk 63872533800 (some 0)).tz = some 0 ∧
    denotedInstant (.str "2025-01-15T15:30:00+05:00") =
      some (PyDatetime.mk 63872533800 (some 0)).wall :=
  ⟨rfl, ensure_utc_aware_utc_same_instant
    (.str "2025-01-15T15:30:00+05:00") ⟨63872533800, some 0⟩ rfl⟩

theorem toUtcAwareChecked_error_iff (d : PyDatetime) :
    (∃ m, toUtcAwareChecked d = .error m) ↔ d.tz = none := by
  cases hd : d.tz with
  | none =>
    constructor
    · intro _; rfl
    · intro _
      refine ⟨"Timezone-naive datetime not allowed. Please provide timezone information.", ?_⟩
      simp [toUtcAwareChecked, hd]
  | some off =>
    constructor
    · rintro ⟨m, hm⟩
      by_cases hoff : off = 0 <;> simp [toUtcAwareChecked, hd, hoff] at hm
    · intro hc; cases hc

theorem ensure_str_error_iff (s : String) :
    (∃ m, ensure_utc_aware (.str s) = .error m) ↔
      (pyStrip s = "" ∨ pyFromIso (normalizeZ (pyStrip s)) = none ∨
        ∃ d0, pyFromIso (normalizeZ (pyStrip s)) = some d0 ∧ d0.tz = none) := by
  by_cases he : pyStrip s = ""
  · constructor
    · intro _; exact Or.inl he
    · intro _
      refine ⟨"Datetime string cannot be empty", ?_⟩
      simp [ensure_utc_aware, he]
  · cases hp : pyFromIso (normalizeZ (pyStrip s)) with
    | none =>
      constructor
      · intro _; exact Or.inr (Or.inl rfl)
      · intro _
        refine ⟨"Invalid datetime format. Use ISO 8601 format with timezone.", ?_⟩
        simp only [ensure_utc_aware, if_neg he, hp]
    | some d0 =>
      constructor
      · rintro ⟨m, hm⟩
        simp only [ensure_utc_aware, if_neg he, hp] at hm
        exact Or.inr (Or.inr
          ⟨d0, rfl, (toUtcAwareChecked_error_iff d0).mp ⟨m, hm⟩⟩)
      · rintro (hc | hc | ⟨d1, hd1, htz⟩)
        · exact absurd hc he
        · cases hc
        · injection hd1 with hdd
          subst hdd
          obtain ⟨m, hm⟩ := (toUtcAwareChecked_error_iff _).mpr htz
          refine ⟨m, ?_⟩
          simp only [ensure_utc_aware, if_neg he, hp]
          exact hm

/-- C2: `ensure_utc_aware` raises `ValueError` exactly when the input is
unacceptable: for `None`, for a string which is empty after stripping,
for a string that does not parse as ISO 8601, for a value that is neither
a string nor a datetime, and for a timezone-naive datetime (passed as an
object or parsed from a string with no offset); and it never returns a
timezone-naive datetime. -/
theorem ensure_utc_aware_error_characterization (x : DTInput) :
    ((∃ m, ensure_utc_aware x = .error m) ↔
      x = .pyNone ∨ x = .otherObj ∨
      (∃ s, x = .str s ∧
        (pyStrip s = "" ∨ pyFromIso (normalizeZ (pyStrip s)) = none ∨
          ∃ d0, pyFromIso (normalizeZ (pyStrip s)) = some d0 ∧ d0.tz = none)) ∨
      (∃ d0, x = .dt d0 ∧ d0.tz = none)) ∧
    ∀ d, ensure_utc_aware x = .ok d → d.tz ≠ none := by
  constructor
  · cases x with
    | pyNone =>
      exact ⟨fun _ => Or.inl rfl, fun _ => ⟨_, rfl⟩⟩
    | otherObj =>
      exact ⟨fun _ => Or.inr (Or.inl rfl), fun _ => ⟨_, rfl⟩⟩
    | dt d0 =>
      constructor
      · intro h
        exact Or.inr (Or.inr (Or.inr
          ⟨d0, rfl, (toUtcAwareChecked_error_iff d0).mp h⟩))
      · rintro (h | h | ⟨s, hs, _⟩ | ⟨d1, hd1, htz⟩)
        · cases h
        · cases h
        · cases hs
        · injection hd1 with hdd
          subst hdd
          exact (toUtcAwareChecked_error_iff _).mpr htz
    | str s =>
      constructor
      · intro h
        exact Or.inr (Or.inr (Or.inl
          ⟨s, rfl, (ensure_str_error_iff s).mp h⟩))
      · rintro (h | h | ⟨s1, hs1, hcase⟩ | ⟨d1, hd1, _⟩)
        · cases h
        · cases h
        · injection hs1 with hss
          subst hss
          exact (ensure_str_error_iff _).mpr hcase
        · cases hd1
  · intro d h
    rw [ensure_utc_aware_ok_tz h]
    exact fun hc => Option.noConfusion hc

theorem ensure_utc_aware_error_characterization_witness :
    (∃ m, ensure_utc_aware (.dt ⟨0, none⟩) = .error m) ∧
    ensure_utc_aware (.dt ⟨100, some 3600⟩) = .ok ⟨-3500, some 0⟩ ∧
    (PyDatetime.mk (-3500) (some 0)).tz ≠ none :=
  ⟨(ensure_utc_aware_error_characterization (.dt ⟨0, none⟩)).1.mpr
      (Or.inr (Or.inr (Or.inr ⟨⟨0, none⟩, rfl, rfl⟩))),
    rfl,
    (ensure_utc_aware_error_characterization (.dt ⟨100, some 3600⟩)).2
      ⟨-3500, some 0⟩ rfl⟩

/-- C9: `ensure_utc_aware` is idempotent on its successful outputs:
feeding an accepted result back in succeeds and returns it unchanged. -/
theorem ensure_utc_aware_idempotent (x : DTInput) (d : PyDatetime)
    (h : ensure_utc_aware x = .ok d) :
    ensure_utc_aware (.dt d) = .ok d := by
  have htz : d.tz = some 0 := ensure_utc_aware_ok_tz h
  show toUtcAwareChecked d = .ok d
  simp [toUtcAwareChecked, htz]

theorem ensure_utc_aware_idempotent_witness :
    ensure_utc_aware (.str "2025-01-15T10:30:00Z") =
      .ok ⟨63872533800, some 0⟩ ∧
    ensure_utc_aware (.dt ⟨63872533800, some 0⟩) =
      .ok ⟨63872533800, some 0⟩ :=
  ⟨rfl, ensure_utc_aware_idempotent
    (.str "2025-01-15T10:30:00Z") ⟨63872533800, some 0⟩ rfl⟩

/- ### `app/schemas/event.py` -/

/-- Embeds `EventCreateSchema.validate_title` (the `isinstance` check is
carried by the type): reject when the whitespace-stripped length is
below 1 or the raw length is above 255, else return the value. -/
def validate_title (v : String) : Except String String :=
  if (pyStrip v).length < 1 then
    .error "Title must be between 1 and 255 characters"
  else if v.length > 255 then
    .error "Title must be between 1 and 255 characters"
  else .ok v

/-- Embeds `EventCreateSchema.validate_description`: `None` passes, a
string longer than 2000 characters is rejected. -/
def validate_description : Option String → Except String (Option String)
  | none => .ok none
  | some v =>
    if v.length > 2000 then .error "Description cannot exceed 2000 characters"
    else .ok (some v)

/-- C7: `EventCreateSchema` accepts a title exactly when its stripped
length is at least 1 and its raw length at most 255, returning the title
unmodified; it accepts a description exactly when it is absent or at most
2000 characters, also unmodified. -/
theorem event_create_schema_validators (t : String) (d : Option String) :
    ((∃ r, validate_title t = .ok r) ↔
      1 ≤ (pyStrip t).length ∧ t.length ≤ 255) ∧
    (∀ r, validate_title t = .ok r → r = t) ∧
    ((∃ r, validate_description d = .ok r) ↔
      d = none ∨ ∃ s, d = some s ∧ s.length ≤ 2000) ∧
    (∀ r, validate_description d = .ok r → r = d) := by
  refine ⟨?_, ?_, ?_, ?_⟩
  · constructor
    · rintro ⟨r, hr⟩
      unfold validate_title at hr
      split_ifs at hr with h1 h2
      exact ⟨by omega, by omega⟩
    · rintro ⟨h1, h2⟩
      refine ⟨t, ?_⟩
      unfold validate_title
      rw [if_neg (by omega), if_neg (by omega)]
  · intro r hr
    unfold validate_title at hr
    split_ifs at hr
    cases hr
    rfl
  · cases d with
    | none =>
      exact ⟨fun _ => Or.inl rfl, fun _ => ⟨none, rfl⟩⟩
    | some v =>
      constructor
      · rintro ⟨r, hr⟩
        simp only [validate_description] at hr
        split_ifs at hr with h1
        exact Or.inr ⟨v, rfl, by omega⟩
      · rintro (hc | ⟨s, hs, hlen⟩)
        · cases hc
        · injection hs with hss
          subst hss
          refine ⟨some v, ?_⟩
          simp only [validate_description]
          rw [if_neg (by omega)]
  · intro r hr
    cases d with
    | none => cases hr; rfl
    | some v =>
      simp only [validate_description] at hr
      split_ifs at hr
      cases hr
      rfl

theorem event_create_schema_validators_witness :
    validate_title "hello" = .ok "hello" ∧
    (∃ r, validate_description (some "a description") = .ok r) :=
  ⟨by
    obtain ⟨r, hr⟩ :=
      (event_create_schema_validators "hello" (some "a description")).1.mpr
        ⟨by decide, by decide⟩
    rw [hr,
      (event_create_schema_validators "hello" (some "a description")).2.1 r hr],
    (event_create_schema_validators "hello" (some "a description")).2.2.1.mpr
      (Or.inr ⟨"a description", rfl, by decide⟩)⟩

/- ### `app/exceptions.py` and `app/services/event_service.py` -/

/-- The service-level exceptions of `app/exceptions.py` that the event
service raises, with their constructor arguments. -/
inductive EventError where
  | notFound (eventId : String)
  | validation (msg : String)
  | businessRule (msg : String)
deriving DecidableEq, Repr

/-- Embeds the message built in `EventNotFoundError.__init__`. -/
def notFoundMessage (eventId : String) : String :=
  "Event with ID \x27" ++ eventId ++ "\x27 not found"

/-- The `message` attribute each exception carries. -/
def errorMessage : EventError → String
  | .notFound i => notFoundMessage i
  | .validation m => m
  | .businessRule m => m

/-- A row of the `events` table (`app/models/event.py`).  The UUID key
is modelled as a `Nat`; the DB-managed audit columns `created_at` and
`updated_at` are not part of any claim and are omitted. -/
structure Event where
  id : Nat
  title : String
  description : Option String
  start_datetime : PyDatetime
  end_datetime : Option PyDatetime
deriving DecidableEq, Repr

/-- A validated `EventCreateSchema` value as `model_dump` produces it. -/
structure EventCreateData where
  title : String
  description : Option String
  start_datetime : PyDatetime
  end_datetime : Option PyDatetime
deriving DecidableEq, Repr

/-- A validated `EventUpdateSchema` value: every field optional. -/
structure EventUpdateData where
  title : Option String
  description : Option String
  start_datetime : Option PyDatetime
  end_datetime : Option PyDatetime
deriving DecidableEq, Repr

/-- Python `<=` on two datetimes: aware values compare by instant, naive
values by wall clock.  (Python raises `TypeError` on an aware/naive mix;
the service only ever compares schema-normalized UTC values, so that
branch is arbitrary here and the service theorems assume UTC inputs.) -/
def pyLE (a b : PyDatetime) : Bool :=
  match a.tz, b.tz with
  | some ta, some tb => decide (a.wall - ta ≤ b.wall - tb)
  | none, none => decide (a.wall ≤ b.wall)
  | _, _ => false

/-- Embeds `EventService._validate_business_rules`: with both datetimes
present and `end_dt <= start_dt`, raise `EventBusinessRuleError`. -/
def validate_business_rules (start_dt end_dt : Option PyDatetime) :
    Except EventError Unit :=
  match start_dt, end_dt with
  | some s, some e =>
    if pyLE e s then .error (.businessRule "End datetime must be after start datetime")
    else .ok ()
  | _, _ => .ok ()

/-- Embeds `EventService.create_event` over the list-of-rows database
model.  The fresh primary key (`uuid4` in the model) is a parameter.
The pair returns the Python result (value or raised exception) and the
database after the call; a raised business-rule error happens before
`session.add`, so the database is returned unchanged. -/
def create_event (db : List Event) (newId : Nat) (data : EventCreateData) :
    Except EventError Event × List Event :=
  match validate_business_rules (some data.start_datetime) data.end_datetime with
  | .error e => (.error e, db)
  | .ok _ =>
    let ev : Event :=
      ⟨newId, data.title, data.description, data.start_datetime, data.end_datetime⟩
    (.ok ev, db ++ [ev])

/-- Embeds `EventService.get_event`: `select ... where id == event_id`
returning the unique row or raising `EventNotFoundError(str(event_id))`. -/
def get_event (db : List Event) (event_id : Nat) : Except EventError Event :=
  match db.find? (fun e => e.id == event_id) with
  | some e => .ok e
  | none => .error (.notFound (toString event_id))

/-- Embeds `EventService.delete_event`: fetch the row (raising
`EventNotFoundError` when absent), delete it, and return `True`. -/
def delete_event (db : List Event) (event_id : Nat) :
    Except EventError Bool × List Event :=
  match get_event db event_id with
  | .error e => (.error e, db)
  | .ok _ => (.ok true, db.eraseP (fun e => e.id == event_id))

/-- Embeds `update_dict.get(field)` after `model_dump(exclude_none=True)`
merged over the stored value: a present update field overwrites, an
absent one keeps the stored value. -/
def mergedField (upd cur : Option PyDatetime) : Option PyDatetime :=
  match upd with
  | some v => some v
  | none => cur

/-- Same merge for the optional string fields of the combined dict. -/
def mergedStrField (upd cur : Option String) : Option String :=
  match upd with
  | some v => some v
  | none => cur

/-- Does `update_data.model_dump(exclude_none=True)` produce an empty
dict, making `update_event` return early? -/
def updateIsEmpty (upd : EventUpdateData) : Bool :=
  upd.title == none && upd.description == none &&
    upd.start_datetime == none && upd.end_datetime == none

/-- Embeds `EventService.update_event`: fetch the row, return it as-is
for an all-`None` update, validate the business rule on the stored
fields overwritten by the present update fields, then apply the present
fields and commit.  On a raised exception the database is unchanged. -/
def update_event (db : List Event) (event_id : Nat) (upd : EventUpdateData) :
    Except EventError Event × List Event :=
  match get_event db event_id with
  | .error e => (.error e, db)
  | .ok ev =>
    if updateIsEmpty upd then (.ok ev, db)
    else
      match validate_business_rules
          (mergedField upd.start_datetime (some ev.start_datetime))
          (mergedField upd.end_datetime ev.end_datetime) with
      | .error e => (.error e, db)
      | .ok _ =>
        let ev2 : Event :=
          { ev with
            title := (upd.title).getD ev.title
            description := mergedStrField upd.description ev.description
            start_datetime := (upd.start_datetime).getD ev.start_datetime
            end_datetime := mergedField upd.end_datetime ev.end_datetime }
        (.ok ev2, db.map (fun e => if e.id == event_id then ev2 else e))

/- ### `app/config.py` -/

/-- Pagination-relevant fields of `Settings`. -/
structure Settings where
  pagination_default_limit : Int
  pagination_max_limit : Int
deriving DecidableEq, Repr

/-- Embeds `validate_pagination_default_limit` and the after-model
validator `validate_pagination_limits` of `Settings`. -/
def validate_settings (s : Settings) : Except String Settings :=
  if s.pagination_default_limit ≤ 0 then
    .error "PAGINATION_DEFAULT_LIMIT must be > 0"
  else if s.pagination_max_limit < s.pagination_default_limit then
    .error "PAGINATION_MAX_LIMIT must be >= PAGINATION_DEFAULT_LIMIT"
  else .ok s

/-- Comparison used by `order_by(Event.start_datetime.asc())`. -/
def startLE (a b : Event) : Bool := pyLE a.start_datetime b.start_datetime

/-- Insertion into a list sorted by `startLE`. -/
def insertByStart (x : Event) : List Event → List Event
  | [] => [x]
  | y :: ys => if startLE x y then x :: y :: ys else y :: insertByStart x ys

/-- The ordering `order_by(Event.start_datetime.asc())` applies, as an
insertion sort. -/
def sortByStart : List Event → List Event
  | [] => []
  | x :: xs => insertByStart x (sortByStart xs)

/-- Embeds `EventService.list_events`: resolve the effective limit from
the settings, then order by start, skip `offset` rows and take at most
the limit. -/
def list_events (db : List Event) (limit : Option Int) (offset : Nat)
    (s : Settings) : List Event :=
  let lim : Int :=
    match limit with
    | none => s.pagination_default_limit
    | some l => min l s.pagination_max_limit
  (((sortByStart db).drop offset).take lim.toNat)

/-- C3: `create_event` raises `EventBusinessRuleError` exactly when the
event data has an `end_datetime` that is not strictly after
`start_datetime`; in that case the database is unchanged (nothing is
added or committed).  The datetimes are schema-normalized UTC values. -/
theorem create_event_business_rule (db : List Event) (newId : Nat)
    (data : EventCreateData)
    (hstz : data.start_datetime.tz = some 0)
    (hetz : ∀ e, data.end_datetime = some e → e.tz = some 0) :
    ((∃ m, (create_event db newId data).1 = .error (.businessRule m)) ↔
      ∃ e, data.end_datetime = some e ∧ pyLE e data.start_datetime = true) ∧
    ((∃ m, (create_event db newId data).1 = .error (.businessRule m)) →
      (create_event db newId data).2 = db) := by
  constructor
  · cases hend : data.end_datetime with
    | none =>
      constructor
      · rintro ⟨m, hm⟩
        simp only [create_event, validate_business_rules, hend] at hm
        cases hm
      · rintro ⟨e, he, _⟩
        cases he
    | some e =>
      by_cases hle : pyLE e data.start_datetime
      · constructor
        · intro _; exact ⟨e, rfl, hle⟩
        · intro _
          refine ⟨"End datetime must be after start datetime", ?_⟩
          simp only [create_event, validate_business_rules, hend, if_pos hle]
      · constructor
        · rintro ⟨m, hm⟩
          simp only [create_event, validate_business_rules, hend,
            if_neg hle] at hm
          cases hm
        · rintro ⟨e1, he1, hle1⟩
          injection he1 with he2
          subst he2
          exact absurd hle1 hle
  · rintro ⟨m, hm⟩
    cases hend : data.end_datetime with
    | none =>
      simp only [create_event, validate_business_rules, hend] at hm
      cases hm
    | some e =>
      by_cases hle : pyLE e data.start_datetime
      · simp only [create_event, validate_business_rules, hend, if_pos hle]
      · simp only [create_event, validate_business_rules, hend,
          if_neg hle] at hm
        cases hm

theorem create_event_business_rule_witness :
    (∃ m, (create_event [] 1
      ⟨"t", none, ⟨10, some 0⟩, some ⟨5, some 0⟩⟩).1 =
        .error (.businessRule m)) ∧
    (create_event [] 1
      ⟨"t", none, ⟨10, some 0⟩, some ⟨5, some 0⟩⟩).2 = [] := by
  have h := create_event_business_rule [] 1
    ⟨"t", none, ⟨10, some 0⟩, some ⟨5, some 0⟩⟩ rfl
    (fun e he => by cases he; rfl)
  have herr := h.1.mpr ⟨⟨5, some 0⟩, rfl, by decide⟩
  exact ⟨herr, h.2 herr⟩

theorem get_event_ok_mem (db : List Event) (i : Nat) (ev : Event)
    (h : get_event db i = .ok ev) : ev ∈ db ∧ ev.id = i := by
  unfold get_event at h
  cases hf : db.find? (fun e => e.id == i) with
  | none => rw [hf] at h; cases h
  | some e1 =>
    rw [hf] at h
    injection h with h1
    subst h1
    refine ⟨List.mem_of_find?_eq_some hf, ?_⟩
    have hpe := List.find?_some hf
    simpa using hpe

theorem get_event_error_iff (db : List Event) (i : Nat) :
    (∃ err, get_event db i = .error err) ↔ ¬∃ ev ∈ db, ev.id = i := by
  unfold get_event
  cases hf : db.find? (fun e => e.id == i) with
  | some e1 =>
    constructor
    · rintro ⟨err, herr⟩; cases herr
    · intro hno
      exact absurd
        ⟨e1, List.mem_of_find?_eq_some hf, by simpa using List.find?_some hf⟩
        hno
  | none =>
    constructor
    · rintro _ ⟨ev, hmem, hid⟩
      have hne := List.find?_eq_none.mp hf ev hmem
      simp [hid] at hne
    · intro _; exact ⟨_, rfl⟩

theorem eraseP_removes_id (db : List Event) (i : Nat)
    (hnd : (db.map Event.id).Nodup) :
    ∀ x ∈ db.eraseP (fun e => e.id == i), x.id ≠ i := by
  induction db with
  | nil => intro x hx; cases hx
  | cons a as ih =>
    intro x hx
    rw [List.map_cons, List.nodup_cons] at hnd
    by_cases ha : a.id = i
    · have hpa : (a.id == i) = true := by simpa using ha
      rw [List.eraseP_cons, hpa] at hx
      simp only [cond_true] at hx
      intro hxi
      exact hnd.1 (by
        rw [ha, ← hxi]
        exact List.mem_map_of_mem Event.id hx)
    · have hpa : (a.id == i) = false := by simpa using ha
      rw [List.eraseP_cons, hpa] at hx
      simp only [cond_false] at hx
      cases List.mem_cons.mp hx with
      | inl hxa => subst hxa; exact ha
      | inr hxs => exact ih hnd.2 x hxs

/-- C8: `get_event` returns the stored event with the requested id when
one exists and raises `EventNotFoundError` naming the id exactly when no
such event exists; `delete_event` likewise raises for a missing id and
returns `True` after removing an existing event. -/
theorem get_delete_event_characterized (db : List Event) (i : Nat)
    (hnd : (db.map Event.id).Nodup) :
    (∀ ev, get_event db i = .ok ev → ev ∈ db ∧ ev.id = i) ∧
    ((∃ ev ∈ db, ev.id = i) → ∃ ev, get_event db i = .ok ev) ∧
    ((∃ err, get_event db i = .error err) ↔ ¬∃ ev ∈ db, ev.id = i) ∧
    (∀ err, get_event db i = .error err →
      err = .notFound (toString i) ∧
      ∃ pre post, errorMessage err = pre ++ toString i ++ post) ∧
    ((∃ err, (delete_event db i).1 = .error err) ↔ ¬∃ ev ∈ db, ev.id = i) ∧
    ((∃ ev ∈ db, ev.id = i) →
      (delete_event db i).1 = .ok true ∧
      ∀ x ∈ (delete_event db i).2, x ∈ db ∧ x.id ≠ i) := by
  refine ⟨fun ev h => get_event_ok_mem db i ev h, ?_, get_event_error_iff db i,
    ?_, ?_, ?_⟩
  · intro hex
    cases hf : db.find? (fun e => e.id == i) with
    | some e1 => exact ⟨e1, by unfold get_event; rw [hf]⟩
    | none =>
      obtain ⟨ev, hmem, hid⟩ := hex
      have hne := List.find?_eq_none.mp hf ev hmem
      simp [hid] at hne
  · intro err herr
    unfold get_event at herr
    cases hf : db.find? (fun e => e.id == i) with
    | some e1 => rw [hf] at herr; cases herr
    | none =>
      rw [hf] at herr
      injection herr with h1
      subst h1
      exact ⟨rfl, "Event with ID \x27", "\x27 not found", rfl⟩
  · unfold delete_event
    cases hg : get_event db i with
    | error err =>
      constructor
      · intro _
        exact (get_event_error_iff db i).mp ⟨err, hg⟩
      · intro _; exact ⟨err, rfl⟩
    | ok ev =>
      constructor
      · rintro ⟨err, herr⟩; cases herr
      · intro hno
        exact absurd (get_event_ok_mem db i ev hg).2
          (by
            intro hid
            exact hno ⟨ev, (get_event_ok_mem db i ev hg).1, hid⟩)
  · intro hex
    cases hg : get_event db i with
    | error err =>
      exact absurd hex ((get_event_error_iff db i).mp ⟨err, hg⟩)
    | ok ev =>
      unfold delete_event
      rw [hg]
      refine ⟨rfl, fun x hx => ?_⟩
      exact ⟨List.Sublist.mem hx (List.eraseP_sublist db),
        eraseP_removes_id db i hnd x hx⟩

theorem get_delete_event_characterized_witness :
    get_event [⟨1, "a", none, ⟨0, some 0⟩, none⟩] 1 =
      .ok ⟨1, "a", none, ⟨0, some 0⟩, none⟩ ∧
    (delete_event [⟨1, "a", none, ⟨0, some 0⟩, none⟩] 1).1 = .ok true ∧
    (delete_event [⟨1, "a", none, ⟨0, some 0⟩, none⟩] 1).2 = [] ∧
    (∃ err, get_event [⟨1, "a", none, ⟨0, some 0⟩, none⟩] 2 = .error err) := by
  refine ⟨rfl, ?_, rfl, ?_⟩
  · exact ((get_delete_event_characterized
      [⟨1, "a", none, ⟨0, some 0⟩, none⟩] 1 (by decide)).2.2.2.2.2
        ⟨⟨1, "a", none, ⟨0, some 0⟩, none⟩, by decide, rfl⟩).1
  · exact (get_delete_event_characterized
      [⟨1, "a", none, ⟨0, some 0⟩, none⟩] 2 (by decide)).2.2.1.mpr (by decide)

theorem mergedField_some (u : Option PyDatetime) (c : PyDatetime) :
    mergedField u (some c) = some (u.getD c) := by
  cases u <;> rfl

/-- C4: `update_event` validates the business rule on the merged state,
the stored event's fields overwritten with the present fields of the
partial update (so updating only one of the two datetimes is still
checked against the other stored value), raising `EventBusinessRuleError`
exactly when the effective `end_datetime` is present and not strictly
after the effective `start_datetime`; on that error the database, and so
the stored event, is unchanged.  The stored row is assumed to satisfy
the table's `end_after_start` check constraint. -/
theorem update_event_merged_validation (db : List Event) (i : Nat)
    (upd : EventUpdateData) (ev : Event)
    (hev : get_event db i = .ok ev)
    (hinv : ∀ e, ev.end_datetime = some e → pyLE e ev.start_datetime = false) :
    ((∃ m, (update_event db i upd).1 = .error (.businessRule m)) ↔
      ∃ e, mergedField upd.end_datetime ev.end_datetime = some e ∧
        pyLE e ((upd.start_datetime).getD ev.start_datetime) = true) ∧
    ((∃ m, (update_event db i upd).1 = .error (.businessRule m)) →
      (update_event db i upd).2 = db) := by
  by_cases hemp : updateIsEmpty upd
  · have hall : upd.start_datetime = none ∧ upd.end_datetime = none := by
      simp only [updateIsEmpty, Bool.and_eq_true, beq_iff_eq] at hemp
      exact ⟨hemp.1.2, hemp.2⟩
    constructor
    · constructor
      · rintro ⟨m, hm⟩
        simp only [update_event, hev, if_pos hemp] at hm
        cases hm
      · rintro ⟨e, he, hle⟩
        rw [hall.2] at he
        simp only [mergedField] at he
        rw [hall.1] at hle
        simp only [Option.getD_none] at hle
        exact absurd hle (by simp [hinv e he])
    · rintro ⟨m, hm⟩
      simp only [update_event, hev, if_pos hemp] at hm
      cases hm
  · have hred : update_event db i upd =
        match validate_business_rules
            (some ((upd.start_datetime).getD ev.start_datetime))
            (mergedField upd.end_datetime ev.end_datetime) with
        | .error e => (.error e, db)
        | .ok _ =>
          (.ok { ev with
              title := (upd.title).getD ev.title
              description := mergedStrField upd.description ev.description
              start_datetime := (upd.start_datetime).getD ev.start_datetime
              end_datetime := mergedField upd.end_datetime ev.end_datetime },
            db.map (fun e => if e.id == i then
              { ev with
                title := (upd.title).getD ev.title
                description := mergedStrField upd.description ev.description
                start_datetime := (upd.start_datetime).getD ev.start_datetime
                end_datetime := mergedField upd.end_datetime ev.end_datetime }
              else e)) := by
      simp only [update_event, hev, if_neg hemp, mergedField_some]
    cases hme : mergedField upd.end_datetime ev.end_datetime with
    | none =>
      rw [hme] at hred
      constructor
      · constructor
        · rintro ⟨m, hm⟩
          rw [hred] at hm
          simp only [validate_business_rules] at hm
          cases hm
        · rintro ⟨e, he, _⟩
          cases he
      · rintro ⟨m, hm⟩
        rw [hred] at hm
        simp only [validate_business_rules] at hm
        cases hm
    | some e =>
      rw [hme] at hred
      by_cases hle : pyLE e ((upd.start_datetime).getD ev.start_datetime)
      · constructor
        · constructor
          · intro _; exact ⟨e, rfl, hle⟩
          · intro _
            refine ⟨"End datetime must be after start datetime", ?_⟩
            rw [hred]
            simp only [validate_business_rules, if_pos hle]
        · intro _
          rw [hred]
          simp only [validate_business_rules, if_pos hle]
      · constructor
        · constructor
          · rintro ⟨m, hm⟩
            rw [hred] at hm
            simp only [validate_business_rules, if_neg hle] at hm
            cases hm
          · rintro ⟨e1, he1, hle1⟩
            injection he1 with he2
            subst he2
            exact absurd hle1 hle
        · rintro ⟨m, hm⟩
          rw [hred] at hm
          simp only [validate_business_rules, if_neg hle] at hm
          cases hm

theorem update_event_merged_validation_witness :
    (∃ m, (update_event [⟨1, "t", none, ⟨0, some 0⟩, some ⟨10, some 0⟩⟩] 1
      ⟨none, none, some ⟨20, some 0⟩, none⟩).1 =
        .error (.businessRule m)) ∧
    (update_event [⟨1, "t", none, ⟨0, some 0⟩, some ⟨10, some 0⟩⟩] 1
      ⟨none, none, some ⟨20, some 0⟩, none⟩).2 =
      [⟨1, "t", none, ⟨0, some 0⟩, some ⟨10, some 0⟩⟩] := by
  have h := update_event_merged_validation
    [⟨1, "t", none, ⟨0, some 0⟩, some ⟨10, some 0⟩⟩] 1
    ⟨none, none, some ⟨20, some 0⟩, none⟩
    ⟨1, "t", none, ⟨0, some 0⟩, some ⟨10, some 0⟩⟩ rfl
    (fun e he => by cases he; rfl)
  have herr := h.1.mpr ⟨⟨10, some 0⟩, rfl, by decide⟩
  exact ⟨herr, h.2 herr⟩

/-- C10: `update_event` ignores update fields whose value is `None`
(`model_dump(exclude_none=True)`): an all-`None` update returns the
stored event with all fields unchanged and performs no database write,
and a partial update can never clear a stored `end_datetime` or
`description` back to null. -/
theorem update_event_ignores_none_fields (db : List Event) (i : Nat)
    (ev : Event) (hev : get_event db i = .ok ev) :
    update_event db i ⟨none, none, none, none⟩ = (.ok ev, db) ∧
    (∀ upd ev2, (update_event db i upd).1 = .ok ev2 →
      (ev.end_datetime ≠ none → ev2.end_datetime ≠ none) ∧
      (ev.description ≠ none → ev2.description ≠ none)) := by
  constructor
  · have hemp : updateIsEmpty ⟨none, none, none, none⟩ = true := rfl
    simp only [update_event, hev, if_pos hemp]
  · intro upd ev2 hok
    by_cases hemp : updateIsEmpty upd
    · simp only [update_event, hev, if_pos hemp] at hok
      injection hok with h1
      subst h1
      exact ⟨id, id⟩
    · simp only [update_event, hev, if_neg hemp] at hok
      cases hv : validate_business_rules
          (mergedField upd.start_datetime (some ev.start_datetime))
          (mergedField upd.end_datetime ev.end_datetime) with
      | error e => rw [hv] at hok; cases hok
      | ok u =>
        rw [hv] at hok
        injection hok with h1
        subst h1
        constructor
        · intro hne
          cases hu : upd.end_datetime with
          | some v => simp [mergedField, hu]
          | none => simpa [mergedField, hu] using hne
        · intro hnd
          cases hu : upd.description with
          | some v => simp [mergedStrField, hu]
          | none => simpa [mergedStrField, hu] using hnd

theorem update_event_ignores_none_fields_witness :
    update_event [⟨1, "t", some "d", ⟨0, some 0⟩, some ⟨10, some 0⟩⟩] 1
      ⟨none, none, none, none⟩ =
      (.ok ⟨1, "t", some "d", ⟨0, some 0⟩, some ⟨10, some 0⟩⟩,
        [⟨1, "t", some "d", ⟨0, some 0⟩, some ⟨10, some 0⟩⟩]) :=
  (update_event_ignores_none_fields
    [⟨1, "t", some "d", ⟨0, some 0⟩, some ⟨10, some 0⟩⟩] 1
    ⟨1, "t", some "d", ⟨0, some 0⟩, some ⟨10, some 0⟩⟩ rfl).1

theorem pyLE_total_utc (a b : PyDatetime) (ha : a.tz = some 0)
    (hb : b.tz = some 0) (h : pyLE a b = false) : pyLE b a = true := by
  simp only [pyLE, ha, hb, decide_eq_false_iff_not, decide_eq_true_eq] at *
  omega

theorem pyLE_trans_utc (a b c : PyDatetime) (ha : a.tz = some 0)
    (hb : b.tz = some 0) (hc : c.tz = some 0)
    (h1 : pyLE a b = true) (h2 : pyLE b c = true) : pyLE a c = true := by
  simp only [pyLE, ha, hb, hc, decide_eq_true_eq] at *
  omega

theorem mem_insertByStart (x a : Event) (l : List Event) :
    x ∈ insertByStart a l ↔ x = a ∨ x ∈ l := by
  induction l with
  | nil => simp [insertByStart]
  | cons y ys ih =>
    simp only [insertByStart]
    by_cases hay : startLE a y
    · rw [if_pos hay]
      simp only [List.mem_cons]
    · rw [if_neg hay]
      simp only [List.mem_cons, ih]
      tauto

theorem pairwise_insertByStart (a : Event) (l : List Event)
    (hautc : a.start_datetime.tz = some 0)
    (hlutc : ∀ e ∈ l, e.start_datetime.tz = some 0)
    (hl : l.Pairwise (fun u v => startLE u v = true)) :
    (insertByStart a l).Pairwise (fun u v => startLE u v = true) := by
  induction l with
  | nil => simp [insertByStart]
  | cons y ys ih =>
    simp only [insertByStart]
    rcases List.pairwise_cons.mp hl with ⟨hy, hys⟩
    by_cases hay : startLE a y
    · rw [if_pos hay]
      refine List.pairwise_cons.mpr ⟨?_, hl⟩
      intro z hz
      cases List.mem_cons.mp hz with
      | inl hzy => subst hzy; exact hay
      | inr hzys =>
        exact pyLE_trans_utc _ _ _ hautc (hlutc y (by simp))
          (hlutc z (List.mem_cons_of_mem y hzys)) hay (hy z hzys)
    · rw [if_neg hay]
      refine List.pairwise_cons.mpr
        ⟨?_, ih (fun e he => hlutc e (List.mem_cons_of_mem y he)) hys⟩
      intro z hz
      rcases (mem_insertByStart z a ys).mp hz with hza | hzys
      · rw [hza]
        have hay2 : startLE a y = false := by simpa using hay
        exact pyLE_total_utc _ _ hautc (hlutc y (by simp)) hay2
      · exact hy z hzys

theorem mem_sortByStart (x : Event) (l : List Event) :
    x ∈ sortByStart l ↔ x ∈ l := by
  induction l with
  | nil => simp [sortByStart]
  | cons y ys ih => simp [sortByStart, mem_insertByStart, ih, List.mem_cons]

theorem pairwise_sortByStart (l : List Event)
    (hut : ∀ e ∈ l, e.start_datetime.tz = some 0) :
    (sortByStart l).Pairwise (fun u v => startLE u v = true) := by
  induction l with
  | nil => simp [sortByStart]
  | cons y ys ih =>
    simp only [sortByStart]
    refine pairwise_insertByStart y (sortByStart ys) (hut y (by simp))
      (fun e he => hut e (List.mem_cons_of_mem y ((mem_sortByStart e ys).mp he)))
      (ih (fun e he => hut e (List.mem_cons_of_mem y he)))

/-- C5: `list_events` returns stored events ordered by `start_datetime`
ascending, skipping the first `offset` of them and returning at most an
effective limit of them: `pagination_default_limit` when the caller
passes no limit, `min(limit, pagination_max_limit)` otherwise; and a
validated configuration guarantees
`pagination_max_limit >= pagination_default_limit`.  Stored start
datetimes are schema-normalized UTC values. -/
theorem list_events_characterized (db : List Event) (limit : Option Int)
    (offset : Nat) (s : Settings)
    (hut : ∀ e ∈ db, e.start_datetime.tz = some 0) :
    (list_events db limit offset s).Pairwise (fun u v => startLE u v = true) ∧
    (∀ e ∈ list_events db limit offset s, e ∈ db) ∧
    list_events db limit offset s =
      ((sortByStart db).drop offset).take
        (match limit with
          | none => s.pagination_default_limit
          | some l => min l s.pagination_max_limit).toNat ∧
    (list_events db limit offset s).length ≤
      (match limit with
        | none => s.pagination_default_limit
        | some l => min l s.pagination_max_limit).toNat ∧
    (∀ s1, validate_settings s = .ok s1 →
      s1.pagination_default_limit ≤ s1.pagination_max_limit) := by
  have heq : list_events db limit offset s =
      ((sortByStart db).drop offset).take
        (match limit with
          | none => s.pagination_default_limit
          | some l => min l s.pagination_max_limit).toNat := by
    cases limit <;> rfl
  refine ⟨?_, ?_, heq, ?_, ?_⟩
  · rw [heq]
    refine List.Pairwise.sublist ?_ (pairwise_sortByStart db hut)
    exact (List.take_sublist _ _).trans (List.drop_sublist _ _)
  · intro e he
    rw [heq] at he
    exact (mem_sortByStart e db).mp
      (List.mem_of_mem_drop (List.mem_of_mem_take he))
  · rw [heq]
    exact List.length_take_le _ _
  · intro s1 hs1
    unfold validate_settings at hs1
    by_cases h1 : s.pagination_default_limit ≤ 0
    · rw [if_pos h1] at hs1; cases hs1
    · rw [if_neg h1] at hs1
      by_cases h2 : s.pagination_max_limit < s.pagination_default_limit
      · rw [if_pos h2] at hs1; cases hs1
      · rw [if_neg h2] at hs1
        injection hs1 with h3
        subst h3
        omega

theorem list_events_characterized_witness :
    list_events
      [⟨1, "a", none, ⟨10, some 0⟩, none⟩, ⟨2, "b", none, ⟨5, some 0⟩, none⟩]
      none 0 ⟨50, 200⟩ =
      [⟨2, "b", none, ⟨5, some 0⟩, none⟩,
        ⟨1, "a", none, ⟨10, some 0⟩, none⟩] ∧
    (50 : Int) ≤ 200 :=
  ⟨rfl,
    (list_events_characterized
      [⟨1, "a", none, ⟨10, some 0⟩, none⟩, ⟨2, "b", none, ⟨5, some 0⟩, none⟩]
      none 0 ⟨50, 200⟩ (by decide)).2.2.2.2 ⟨50, 200⟩ rfl⟩

/- ### `app/error_handlers.py` and the handlers wired in `app/main.py` -/

/-- Tail step of the snake_case regex `(?<!^)(?=[A-Z])` followed by
`.lower()`: an underscore lands before every non-initial uppercase. -/
def snakeLowerGo : List Char → List Char
  | [] => []
  | c :: rest =>
    if c.isUpper then '_' :: c.toLower :: snakeLowerGo rest
    else c.toLower :: snakeLowerGo rest

/-- CamelCase to snake_case as the regex substitution does it: no
underscore before the first character. -/
def snakeLower : List Char → List Char
  | [] => []
  | c :: rest => c.toLower :: snakeLowerGo rest

/-- Model of Python `str.endswith` for a multi-character suffix. -/
def pyEndsWithStr (s suf : String) : Bool :=
  decide (suf.toList.length ≤ s.toList.length) &&
    (s.toList.drop (s.toList.length - suf.toList.length) == suf.toList)

/-- Embeds `generate_error_code` of `app/error_handlers.py`. -/
def generate_error_code (exception_class_name : String) : String :=
  if exception_class_name = "RequestValidationError" then "validation_error"
  else if exception_class_name = "Exception" then "internal_server_error"
  else
    let name :=
      if pyEndsWithStr exception_class_name "Error" then
        String.mk (exception_class_name.toList.take
          (exception_class_name.toList.length - 5))
      else exception_class_name
    String.mk (snakeLower name.toList)

/-- The error-code rule exactly as the claim's sentence states it: the
snake_case form of the exception class name with its `Error` suffix
removed, with no special cases. -/
def claimedErrorCode (className : String) : String :=
  let name :=
    if pyEndsWithStr className "Error" then
      String.mk (className.toList.take (className.toList.length - 5))
    else className
  String.mk (snakeLower name.toList)

/-- Exceptions reaching the handlers registered in `create_app`;
dispatch picks the most specific registered handler, so a plain
`EventBaseError` is the only event error left for the base handler, and
`generic` covers every class outside the event hierarchy. -/
inductive AppException where
  | eventNotFound (eventId : String)
  | eventValidation (msg : String)
  | eventBusinessRule (msg : String)
  | eventBaseOther (msg : String)
  | requestValidation
  | generic (className : String) (msg : String)
deriving DecidableEq, Repr

/-- The `exc.__class__.__name__` each handler passes on. -/
def exceptionClassName : AppException → String
  | .eventNotFound _ => "EventNotFoundError"
  | .eventValidation _ => "EventValidationError"
  | .eventBusinessRule _ => "EventBusinessRuleError"
  | .eventBaseOther _ => "EventBaseError"
  | .requestValidation => "RequestValidationError"
  | .generic c _ => c

/-- HTTP status and the `code` / `message` fields of the
`{"error": {...}}` body every handler builds. -/
structure ErrorHttpResponse where
  status : Nat
  code : String
  message : String
deriving DecidableEq, Repr

/-- Embeds the six handlers of `app/error_handlers.py` as registered in
`app/main.py`. -/
def handle_exception : AppException → ErrorHttpResponse
  | .eventNotFound i =>
    ⟨404, generate_error_code "EventNotFoundError", notFoundMessage i⟩
  | .eventValidation m =>
    ⟨400, generate_error_code "EventValidationError", m⟩
  | .eventBusinessRule m =>
    ⟨400, generate_error_code "EventBusinessRuleError", m⟩
  | .eventBaseOther m =>
    ⟨500, generate_error_code "EventBaseError", m⟩
  | .requestValidation =>
    ⟨400, generate_error_code "RequestValidationError", "Request validation failed"⟩
  | .generic c _ =>
    ⟨500, generate_error_code c, "An internal server error occurred"⟩

/-- C6 counterexample: the `RequestValidationError` response does get
status 400, but its body code is the special-cased "validation_error",
not the snake_case form "request_validation" the claim's rule
prescribes. -/
theorem error_code_claim_counterexample :
    (handle_exception .requestValidation).status = 400 ∧
    claimedErrorCode "RequestValidationError" = "request_validation" ∧
    (handle_exception .requestValidation).code = "validation_error" ∧
    (handle_exception .requestValidation).code ≠
      claimedErrorCode (exceptionClassName .requestValidation) := by
  refine ⟨rfl, rfl, rfl, ?_⟩
  decide

/-- C6 (amended): the handlers map `EventNotFoundError` to 404;
`EventValidationError`, `EventBusinessRuleError` and
`RequestValidationError` to 400; any other `EventBaseError` and generic
exceptions to 500; and the body's code is the snake_case class name with
the `Error` suffix removed, except that `RequestValidationError` yields
"validation_error" and the bare `Exception` class yields
"internal_server_error". -/
theorem handle_exception_mapping (exc : AppException) :
    (handle_exception exc).status =
      (match exc with
        | .eventNotFound _ => 404
        | .eventValidation _ => 400
        | .eventBusinessRule _ => 400
        | .requestValidation => 400
        | .eventBaseOther _ => 500
        | .generic _ _ => 500) ∧
    (handle_exception exc).code =
      (if exceptionClassName exc = "RequestValidationError" then
        "validation_error"
      else if exceptionClassName exc = "Exception" then
        "internal_server_error"
      else claimedErrorCode (exceptionClassName exc)) := by
  cases exc with
  | eventNotFound i => exact ⟨rfl, rfl⟩
  | eventValidation m => exact ⟨rfl, rfl⟩
  | eventBusinessRule m => exact ⟨rfl, rfl⟩
  | eventBaseOther m => exact ⟨rfl, rfl⟩
  | requestValidation => exact ⟨rfl, rfl⟩
  | generic c m =>
    refine ⟨rfl, ?_⟩
    show generate_error_code c = _
    unfold generate_error_code claimedErrorCode
    rfl
